import Mathlib

/-!
Verification of the exchange-listing aggregation pipeline.

The definitions below are a shallow embedding of the Python sources:
`src/monitor.py` (class `BinanceListingBot`), `src/src/monitor.py`
(class `ListingMonitor`), `src/src/coinmarketcal_client.py`
(class `CoinMarketCalClient`) and `src/src/scrapers/binance_scraper.py`
(class `BinanceScraper`).  Pure functions become Lean functions; file I/O
and the network are explicit parameters (a `FileState` for the cache file,
an oracle for the Telegram send outcome, a pre-fetched event list for the
HTTP APIs); Python exceptions become `Option`.
-/

namespace ListingSpec

/- ### ASCII character classes used by the Python regexes -/

/-- Uppercase ASCII letter, the class `[A-Z]`. -/
def isUpperAZ (c : Char) : Bool := 'A' ≤ c && c ≤ 'Z'

/-- Lowercase ASCII letter. -/
def isLowerAZ (c : Char) : Bool := 'a' ≤ c && c ≤ 'z'

/-- ASCII letter, the class `[A-Z]` under `re.IGNORECASE`. -/
def isAlphaC (c : Char) : Bool := isUpperAZ c || isLowerAZ c

/-- ASCII digit, the class `\d`. -/
def isDigitC (c : Char) : Bool := '0' ≤ c && c ≤ '9'

/-- Word character, the class `\w` underlying `\b` (letters, digits, underscore). -/
def isWordChar (c : Char) : Bool := isAlphaC c || isDigitC c || c = '_'

/-- Whitespace, the class `\s` (space, tab, newline, CR, VT, FF). -/
def isSpaceC (c : Char) : Bool :=
  c = ' ' || c = '\t' || c = '\n' || c = '\r' || c.toNat = 11 || c.toNat = 12

/-- Python `str.lower()` restricted to ASCII input. -/
def toLowerStr (s : String) : String := String.mk (s.toList.map Char.toLower)

/-- Python `str.upper()` restricted to ASCII input. -/
def toUpperStr (s : String) : String := String.mk (s.toList.map Char.toUpper)

/-- Substring test on character lists, modelling Python `needle in hay`. -/
def containsSub (needle : List Char) : List Char → Bool
  | [] => needle.isEmpty
  | c :: t => needle.isPrefixOf (c :: t) || containsSub needle t

/-- Substring test on strings, modelling Python `needle in hay`. -/
def containsSubStr (hay needle : String) : Bool := containsSub needle.toList hay.toList

/- ### The canonical listing record

The dict built by `CoinMarketCalClient.parse_listing_event` and consumed by
`ListingMonitor`.  `Option` fields model dict keys that can be absent
(`ListingMonitor` reads `date` and `confidence` through `.get` with a
default, so downstream listings may lack them). -/

structure Listing where
  token : String
  name : Option String
  exchange : String
  date : Option String
  pairs : List String
  url : String
  title : String
  description : String
  confidence : Option Int
  timestamp : String
  source : String
deriving Repr, DecidableEq

/- ### DedupStore: the persisted cache, a Python dict keyed by identity key -/

/-- The cache dict: insertion-ordered association list, one entry per key. -/
abbrev Cache := List (String × Listing)

/-- Python dict assignment `d[k] = v`: overwrite in place, else append. -/
def insertKV : Cache → String → Listing → Cache
  | [], k, v => [(k, v)]
  | (k', v') :: rest, k, v =>
    if k' = k then (k, v) :: rest else (k', v') :: insertKV rest k v

/-- Python `k in d` on the cache dict. -/
def containsKey : Cache → String → Bool
  | [], _ => false
  | (k', _) :: rest, k => if k' = k then true else containsKey rest k

/-- State of the cache file on disk, as far as `load_cache` can observe it. -/
inductive FileState where
  | missing
  | unreadable
  | content (s : String)

/-- Python `os.path.exists(self.cache_file)`. -/
def os_path_exists : FileState → Bool
  | .missing => false
  | _ => true

/-- Reading the cache file; `none` models `open`/read raising. -/
def read_file : FileState → Option String
  | .missing => none
  | .unreadable => none
  | .content s => some s

/-- ListingMonitor.load_cache (src/src/monitor.py lines 27-35): inside a
`try`, if the file exists parse it with `json.load`, any exception is caught
and logged, and the empty dict is returned.  `parseJson` models
`json.load`; `none` models it raising. -/
def load_cache (parseJson : String → Option Cache) (fs : FileState) : Cache :=
  if os_path_exists fs then
    match read_file fs with
    | none => []
    | some s =>
      match parseJson s with
      | none => []
      | some m => m
  else []

/- ### ListingMonitor: key, filter, run -/

/-- ListingMonitor.get_listing_key (src/src/monitor.py lines 46-48):
the f-string exchange underscore token underscore date, the date read via
`.get` with default `unknown`. -/
def get_listing_key (l : Listing) : String :=
  l.exchange ++ "_" ++ l.token ++ "_" ++ (l.date.getD "unknown")

/-- ListingMonitor.is_new_listing (src/src/monitor.py lines 50-53). -/
def is_new_listing (previous : Cache) (l : Listing) : Bool :=
  !(containsKey previous (get_listing_key l))

/-- ListingMonitor.filter_high_confidence_listings (src/src/monitor.py
lines 55-68): keep a listing when its confidence (default 0) is at least 60
or its exchange is binance or coinbase. -/
def filter_high_confidence_listings (listings : List Listing) : List Listing :=
  listings.filter fun l =>
    (60 ≤ l.confidence.getD 0) || (l.exchange = "binance" || l.exchange = "coinbase")

/-- The `all_listings` dict built by the loop in ListingMonitor.run
(src/src/monitor.py lines 89-91). -/
def buildAll (hc : List Listing) : Cache :=
  hc.foldl (fun m l => insertKV m (get_listing_key l) l) []

/-- ListingMonitor.run (src/src/monitor.py lines 70-121), one cycle.
`previous` is the cache loaded at construction time, `upcoming` the result
of `get_upcoming_listings`, and `sendOk` tells whether
`telegram_bot.send_listing_alert` succeeds or raises for a given listing
(the raise is caught inside the loop).  Returns the alert attempts in
delivery order, each paired with its outcome, together with the cache
passed to `save_cache` (the previous cache when the early `return` on an
empty fetch fires first). -/
def runCycle (sendOk : Listing → Bool) (previous : Cache) (upcoming : List Listing) :
    List (Listing × Bool) × Cache :=
  if upcoming.isEmpty then ([], previous)
  else
    let hc := filter_high_confidence_listings upcoming
    let all_listings := buildAll hc
    let new_listings := hc.filter fun l => is_new_listing previous l
    (new_listings.map fun l => (l, sendOk l), all_listings)

/- ### CoinMarketCalClient: token, exchange, pair and event parsing

The three token regexes of `extract_tokens` are compiled by hand.  The first
one, word boundary then two to eight uppercase letters then word boundary,
matches exactly the maximal runs of word characters that consist of 2 to 8
uppercase letters (a longer or mixed run offers no interior word boundary to
anchor on).  The second, a dollar sign then the same body and a closing word
boundary, and the third, the same body enclosed in literal parentheses, are
anchored on their leading delimiter, so scanning character by character and
testing the run that follows each delimiter reproduces `re.findall`. -/

/-- Splits a text into its maximal runs of word characters. -/
def wordRunsAux : List Char → List Char → List (List Char)
  | [], acc => if acc.isEmpty then [] else [acc.reverse]
  | c :: rest, acc =>
    if isWordChar c then wordRunsAux rest (c :: acc)
    else if acc.isEmpty then wordRunsAux rest []
    else acc.reverse :: wordRunsAux rest []

/-- Maximal word-character runs of a text, in order. -/
def wordRuns (cs : List Char) : List (List Char) := wordRunsAux cs []

/-- Matches of the first pattern of `extract_tokens`: bare uppercase runs of
length 2 to 8 delimited by word boundaries. -/
def bareTokens (cs : List Char) : List String :=
  (wordRuns cs).filterMap fun r =>
    if r.all isUpperAZ && 2 ≤ r.length && r.length ≤ 8 then some (String.mk r) else none

/-- Matches of the second pattern of `extract_tokens`: a dollar sign, then
2 to 8 uppercase letters closed by a word boundary. -/
def dollarTokens : List Char → List String
  | [] => []
  | c :: rest =>
    if c = '$' then
      let run := rest.takeWhile isWordChar
      if run.all isUpperAZ && 2 ≤ run.length && run.length ≤ 8 then
        String.mk run :: dollarTokens rest
      else dollarTokens rest
    else dollarTokens rest

/-- Matches of the third pattern of `extract_tokens`: 2 to 8 uppercase
letters enclosed in literal parentheses. -/
def parenTokens : List Char → List String
  | [] => []
  | c :: rest =>
    if c = '(' then
      let run := rest.takeWhile isUpperAZ
      if 2 ≤ run.length && run.length ≤ 8 && (rest.drop run.length).head? = some ')' then
        String.mk run :: parenTokens rest
      else parenTokens rest
    else parenTokens rest

/-- Python `list(dict.fromkeys(l))`: drop duplicates keeping first
occurrences. -/
def dedupSeen (seen : List String) : List String → List String
  | [] => []
  | x :: rest => if x ∈ seen then dedupSeen seen rest else x :: dedupSeen (x :: seen) rest

/-- Python `list(dict.fromkeys(l))` with no keys seen yet. -/
def dedupKeepFirst (l : List String) : List String := dedupSeen [] l

/-- The fixed false-positive set of CoinMarketCalClient.extract_tokens
(src/src/coinmarketcal_client.py lines 181-184). -/
def false_positives : List String :=
  ["USD", "EUR", "GBP", "BTC", "ETH", "USDT", "USDC",
   "API", "NEW", "THE", "AND", "FOR", "UTC", "GMT"]

/-- CoinMarketCalClient.extract_tokens (src/src/coinmarketcal_client.py
lines 164-192): collect the matches of the three patterns in order, keep
those of length 2 to 6 that are not known false positives, and drop
duplicates preserving order. -/
def extract_tokens (text : String) : List String :=
  let cs := text.toList
  let tokens := bareTokens cs ++ dollarTokens cs ++ parenTokens cs
  let valid_tokens := tokens.filter fun t =>
    2 ≤ t.length && t.length ≤ 6 && !(false_positives.contains t)
  dedupKeepFirst valid_tokens

/-- The exchange names CoinMarketCalClient.extract_exchange_name searches
for, longer names first. -/
def exchange_names : List String :=
  ["coinbase pro", "coinbase", "binance", "bybit", "kraken",
   "kucoin", "huobi", "okx", "gate.io", "bitget", "mexc"]

/-- CoinMarketCalClient.extract_exchange_name (src/src/coinmarketcal_client.py
lines 148-162): first known exchange name occurring in the lowercased text. -/
def extract_exchange_name (text : String) : Option String :=
  let text_lower := toLowerStr text
  exchange_names.find? fun e => containsSubStr text_lower e

/-- A CoinMarketCal event as the client reads it: the fields of the API
response dict that `parse_listing_event` consumes.  `coins` holds the
optional name of each coin entry. -/
structure Event where
  title : String
  description : String
  date_event : Option String
  percentage : Option Int
  id : String
  coins : List (Option String)
deriving Repr, DecidableEq

/-- The keyword list of CoinMarketCalClient.is_exchange_listing. -/
def listing_keywords : List String :=
  ["listing", "will list", "lists", "trading pair",
   "available for trading", "spot trading", "perpetual", "futures"]

/-- CoinMarketCalClient.is_exchange_listing (src/src/coinmarketcal_client.py
lines 75-94). -/
def is_exchange_listing (ev : Event) : Bool :=
  let text_to_check := toLowerStr ev.title ++ " " ++ toLowerStr ev.description
  listing_keywords.any fun kw => containsSubStr text_to_check kw

/-- The quote currencies of CoinMarketCalClient.extract_trading_pairs. -/
def quote_currencies : List String := ["USDT", "USDC", "BTC", "ETH", "BNB", "USD", "EUR"]

/-- CoinMarketCalClient.extract_trading_pairs (src/src/coinmarketcal_client.py
lines 194-213): literal token-slash-quote substrings of the uppercased text,
with a default pair set when none is found. -/
def extract_trading_pairs (text token : String) : List String :=
  let text_upper := toUpperStr text
  let pairs := quote_currencies.filterMap fun quote =>
    let pair_pattern := token ++ "/" ++ quote
    if containsSubStr text_upper pair_pattern then some pair_pattern else none
  if pairs.isEmpty then [token ++ "/USDT", token ++ "/BTC"] else pairs

/-- CoinMarketCalClient.parse_listing_event (src/src/coinmarketcal_client.py
lines 96-146).  `dparse d` models `parser.parse` followed by `strftime`;
`none` models the parse raising, in which case the raw string is kept.
`now` is the timestamp the client stamps on the record. -/
def parse_listing_event (dparse : String → Option String) (now : String)
    (ev : Event) : Option Listing :=
  let exchange? := extract_exchange_name (ev.title ++ " " ++ ev.description)
  let tokens :=
    let t := extract_tokens ev.title
    if t.isEmpty then extract_tokens ev.description else t
  match tokens, exchange? with
  | token :: _, some exchange =>
    let formatted_date :=
      match ev.date_event with
      | some d => (dparse d).getD d
      | none => "TBA"
    some { token := token,
           name := match ev.coins with | [] => none | c :: _ => c,
           exchange := toLowerStr exchange,
           date := some formatted_date,
           pairs := extract_trading_pairs (ev.title ++ " " ++ ev.description) token,
           url := "https://coinmarketcal.com/en/event/" ++ ev.id,
           title := ev.title, description := ev.description,
           confidence := some (ev.percentage.getD 0),
           timestamp := now, source := "CoinMarketCal" }
  | _, _ => none

/-- The priority table of CoinMarketCalClient (src/src/coinmarketcal_client.py
lines 22-28), reduced to the priority numbers. -/
def priority_exchanges : List (String × Nat) :=
  [("binance", 1), ("coinbase", 2), ("coinbase pro", 2), ("bybit", 3), ("kraken", 4)]

/-- CoinMarketCalClient.is_priority_exchange. -/
def is_priority_exchange (exchange : String) : Bool :=
  (priority_exchanges.lookup (toLowerStr exchange)).isSome

/-- CoinMarketCalClient.get_exchange_priority (src/src/coinmarketcal_client.py
lines 219-221): priority number of an exchange, 999 when unranked. -/
def get_exchange_priority (exchange : String) : Nat :=
  (priority_exchanges.lookup (toLowerStr exchange)).getD 999

/-- The `listings` list CoinMarketCalClient.get_upcoming_listings
(src/src/coinmarketcal_client.py lines 30-73, after the HTTP fetch)
accumulates before its final sort: events that look like exchange listings,
parsed, restricted to priority exchanges, in corpus order. -/
def prefilter_listings (dparse : String → Option String) (now : String)
    (events : List Event) : List Listing :=
  (events.filter is_exchange_listing).filterMap fun ev =>
    match parse_listing_event dparse now ev with
    | some l => if is_priority_exchange l.exchange then some l else none
    | none => none

/-- The comparison `listings.sort` uses, through its priority key. -/
def priority_le (a b : Listing) : Bool :=
  decide (get_exchange_priority a.exchange ≤ get_exchange_priority b.exchange)

/-- CoinMarketCalClient.get_upcoming_listings after the HTTP fetch: the
accumulated listings sorted by exchange priority with Python's stable
`list.sort` (binance first, then coinbase, bybit, kraken). -/
def get_upcoming_listings (dparse : String → Option String) (now : String)
    (events : List Event) : List Listing :=
  (prefilter_listings dparse now events).mergeSort priority_le

/- ### BinanceScraper: announcement parsing

The regexes of `BinanceScraper.parse_listing_announcement`,
`extract_token_name` and `extract_listing_date` are compiled by hand as
matchers that try to match at one position, wrapped in a scanner that
advances one character at a time, which reproduces the leftmost-match
behaviour of `re.search`. -/

/-- Case-insensitive literal prefix match; the pattern is given lowercase.
Returns the rest of the input on success. -/
def matchPrefixCI (pat : List Char) : List Char → Option (List Char)
  | l =>
    match pat, l with
    | [], l => some l
    | _ :: _, [] => none
    | p :: ps, c :: cs => if c.toLower = p then matchPrefixCI ps cs else none

/-- Exactly `n` digit characters; the piece of a pattern written backslash-d
with a fixed count.  Returns the digits and the rest. -/
def takeDigits (n : Nat) (l : List Char) : Option (List Char × List Char) :=
  let pre := l.take n
  if pre.length = n && pre.all isDigitC then some (pre, l.drop n) else none

/-- One literal character. -/
def expectChar (c : Char) : List Char → Option (List Char)
  | x :: rest => if x = c then some rest else none
  | [] => none

/-- One or more whitespace characters, taken greedily.  Returns the
whitespace and the rest. -/
def takeWs1 (l : List Char) : Option (List Char × List Char) :=
  let ws := l.takeWhile isSpaceC
  if ws.isEmpty then none else some (ws, l.dropWhile isSpaceC)

/-- Leftmost-match search: try a positional matcher at every suffix, first
hit wins, the behaviour of `re.search`. -/
def searchFirst (f : List Char → Option α) : List Char → Option α
  | [] => f []
  | c :: rest =>
    match f (c :: rest) with
    | some x => some x
    | none => searchFirst f rest

/-- Python `str.strip()`: drop whitespace from both ends. -/
def stripChars (l : List Char) : List Char :=
  ((l.dropWhile isSpaceC).reverse.dropWhile isSpaceC).reverse

/-- Positional matcher for the token pattern of
BinanceScraper.parse_listing_announcement (src/src/scrapers/binance_scraper.py
line 67): the literal `list`, whitespace, then 2 to 10 letters, all case
insensitive, the letters taken greedily up to 10. -/
def listTokenAt (l : List Char) : Option String :=
  match matchPrefixCI "list".toList l with
  | none => none
  | some r1 =>
    match takeWs1 r1 with
    | none => none
    | some (_, r2) =>
      let letters := (r2.takeWhile isAlphaC).take 10
      if 2 ≤ letters.length then some (String.mk letters) else none

/-- Positional matcher for the fallback token pattern (line 69): 2 to 10
uppercase letters enclosed in literal parentheses. -/
def parenTokenAt (l : List Char) : Option String :=
  match l with
  | '(' :: rest =>
    let run := rest.takeWhile isUpperAZ
    if 2 ≤ run.length && run.length ≤ 10 && (rest.drop run.length).head? = some ')' then
      some (String.mk run)
    else none
  | _ => none

/-- Positional matcher for the name pattern of
BinanceScraper.extract_token_name (line 109): the literal `list` case
insensitively, whitespace, then at least one character other than an opening
parenthesis, up to an opening parenthesis; the captured text is stripped. -/
def tokenNameAt (l : List Char) : Option String :=
  match matchPrefixCI "list".toList l with
  | none => none
  | some r1 =>
    match takeWs1 r1 with
    | none => none
    | some (_, r2) =>
      let pre := r2.takeWhile fun c => c ≠ '('
      if pre.isEmpty then none
      else if (r2.drop pre.length).head? = some '(' then some (String.mk (stripChars pre))
      else none

/-- BinanceScraper.extract_token_name (src/src/scrapers/binance_scraper.py
lines 106-112). -/
def extract_token_name (title : String) : Option String :=
  searchFirst tokenNameAt title.toList

/-- Positional matcher for the first date pattern of
BinanceScraper.extract_listing_date (line 137): four digits, dash, two
digits, dash, two digits, whitespace, two digits, colon, two digits. -/
def dateP1At (l : List Char) : Option String := do
  let (d1, r) ← takeDigits 4 l
  let r ← expectChar '-' r
  let (d2, r) ← takeDigits 2 r
  let r ← expectChar '-' r
  let (d3, r) ← takeDigits 2 r
  let (ws, r) ← takeWs1 r
  let (d4, r) ← takeDigits 2 r
  let r ← expectChar ':' r
  let (d5, _) ← takeDigits 2 r
  return String.mk (d1 ++ '-' :: d2 ++ '-' :: d3 ++ ws ++ d4 ++ ':' :: d5)

/-- Positional matcher for the second date pattern (line 138): two digits,
slash, two digits, slash, four digits. -/
def dateP2At (l : List Char) : Option String := do
  let (d1, r) ← takeDigits 2 l
  let r ← expectChar '/' r
  let (d2, r) ← takeDigits 2 r
  let r ← expectChar '/' r
  let (d3, _) ← takeDigits 4 r
  return String.mk (d1 ++ '/' :: d2 ++ '/' :: d3)

/-- The tail of the third date pattern (line 139): the literal `on` case
insensitively, whitespace, then a dash date of four, two and two digits.
Returns the matched characters. -/
def onDateAt (l : List Char) : Option (List Char) := do
  let r ← matchPrefixCI "on".toList l
  let (ws, r) ← takeWs1 r
  let (d1, r) ← takeDigits 4 r
  let r ← expectChar '-' r
  let (d2, r) ← takeDigits 2 r
  let r ← expectChar '-' r
  let (d3, _) ← takeDigits 2 r
  return l.take 2 ++ ws ++ d1 ++ '-' :: d2 ++ '-' :: d3

/-- The lazy any-character gap of the third date pattern: scan forward for
the `on` date tail, never crossing a newline (the dot of the regex does not
match one), shortest gap first.  Returns the gap and tail together. -/
def dateP3Scan : List Char → Option (List Char)
  | [] => none
  | c :: rest =>
    match onDateAt (c :: rest) with
    | some m => some m
    | none =>
      if c = '\n' then none
      else (dateP3Scan rest).map fun ms => c :: ms

/-- Positional matcher for the third date pattern (line 139): the literal
`will`, whitespace and `list` case insensitively, then the lazy gap and the
`on` date tail; the whole match is the captured group the code returns. -/
def dateP3At (l : List Char) : Option String :=
  match matchPrefixCI "will".toList l with
  | none => none
  | some r1 =>
    match takeWs1 r1 with
    | none => none
    | some (ws, r2) =>
      match matchPrefixCI "list".toList r2 with
      | none => none
      | some r3 =>
        (dateP3Scan r3).map fun tail =>
          String.mk (l.take 4 ++ ws ++ r2.take 4 ++ tail)

/-- BinanceScraper.extract_listing_date (src/src/scrapers/binance_scraper.py
lines 133-147): try the three date patterns in order over the whole content,
first match wins, no match gives None. -/
def extract_listing_date (content : String) : Option String :=
  match searchFirst dateP1At content.toList with
  | some d => some d
  | none =>
    match searchFirst dateP2At content.toList with
    | some d => some d
    | none => searchFirst dateP3At content.toList

/-- BinanceScraper.extract_trading_pairs (src/src/scrapers/binance_scraper.py
lines 114-131): the four fixed pair patterns found in the uppercased
content, no default when none is found. -/
def extract_trading_pairs_b (content token : String) : List String :=
  let content_upper := toUpperStr content
  [token ++ "/USDT", token ++ "/BTC", token ++ "/BNB", token ++ "/ETH"].filter
    fun pair => containsSubStr content_upper pair

/-- The record BinanceScraper.parse_listing_announcement builds: the dict
with token, name, date, pairs, url, timestamp and title.  Its date is None,
modelled by `none`, whenever no date pattern matched. -/
structure ScrapedListing where
  token : String
  name : Option String
  date : Option String
  pairs : List String
  url : String
  timestamp : String
  title : String
deriving Repr, DecidableEq

/-- BinanceScraper.parse_listing_announcement (src/src/scrapers/binance_scraper.py
lines 63-104).  `page` is the announcement page text, `none` when fetching
it raised, in which case pairs are empty and the date is None.  `now` is the
stamped timestamp. -/
def parse_listing_announcement (title url now : String) (page : Option String) :
    Option ScrapedListing :=
  let token? :=
    match searchFirst listTokenAt title.toList with
    | some t => some (toUpperStr t)
    | none => (searchFirst parenTokenAt title.toList).map toUpperStr
  match token? with
  | none => none
  | some token =>
    let (pairs, listing_date) :=
      match page with
      | some content => (extract_trading_pairs_b content token, extract_listing_date content)
      | none => ([], none)
    some { token := token, name := extract_token_name title, date := listing_date,
           pairs := pairs, url := url, timestamp := now, title := title }

/- ### BinanceListingBot: the standalone monitor's token extractor -/

/-- The false-positive set of BinanceListingBot.extract_token
(src/monitor.py line 92). -/
def bot_false_positives : List String := ["UTC", "GMT", "THE", "AND", "FOR", "NEW"]

/-- BinanceListingBot.extract_token (src/monitor.py lines 86-95): bare
uppercase runs of 2 to 8 letters, minus the false positives, first survivor
or None.  The length filter of the code only re-checks a lower bound of 2. -/
def bot_extract_token (title : String) : Option String :=
  let found := bareTokens title.toList
  let tokens := found.filter fun m => !(bot_false_positives.contains m) && 2 ≤ m.length
  tokens.head?

/- ### Sample records used as concrete inputs -/

/-- A binance listing with an explicit confidence score. -/
def sampleA : Listing :=
  { token := "XYZ", name := none, exchange := "binance",
    date := some "2025-01-01 10:00 UTC", pairs := ["XYZ/USDT"],
    url := "https://coinmarketcal.com/en/event/1", title := "Binance will list XYZ",
    description := "", confidence := some 90, timestamp := "2025-01-01 00:00 UTC",
    source := "CoinMarketCal" }

/-- The same event as `sampleA` observed later: identical exchange, token and
date, different name, pairs, url, title, description, confidence, timestamp. -/
def sampleB : Listing :=
  { token := "XYZ", name := some "Xyz Coin", exchange := "binance",
    date := some "2025-01-01 10:00 UTC", pairs := ["XYZ/BTC", "XYZ/USDT"],
    url := "https://coinmarketcal.com/en/event/2", title := "XYZ listing",
    description := "spot trading", confidence := none,
    timestamp := "2025-01-02 00:00 UTC", source := "CoinMarketCal" }

/-- A binance listing whose confidence key is absent. -/
def binanceNoConf : Listing :=
  { token := "AAA", name := none, exchange := "binance", date := some "TBA",
    pairs := ["AAA/USDT", "AAA/BTC"], url := "https://coinmarketcal.com/en/event/3",
    title := "Binance will list AAA", description := "", confidence := none,
    timestamp := "2025-01-01 00:00 UTC", source := "CoinMarketCal" }

/-- A kraken listing with confidence 45. -/
def krakenLow : Listing :=
  { token := "BBB", name := none, exchange := "kraken", date := some "TBA",
    pairs := ["BBB/USDT", "BBB/BTC"], url := "https://coinmarketcal.com/en/event/4",
    title := "Kraken lists BBB", description := "", confidence := some 45,
    timestamp := "2025-01-01 00:00 UTC", source := "CoinMarketCal" }

/-- A bybit event whose token sorts lexically after the next one. -/
def evZ : Event :=
  { title := "Bybit will list ZZZ", description := "", date_event := none,
    percentage := some 90, id := "1", coins := [] }

/-- A bybit event whose token sorts lexically before the previous one. -/
def evA : Event :=
  { title := "Bybit will list AAA", description := "", date_event := none,
    percentage := some 90, id := "2", coins := [] }

/-- The listing `parse_listing_event` produces for `evZ`. -/
def listingZZZ : Listing :=
  { token := "ZZZ", name := none, exchange := "bybit", date := some "TBA",
    pairs := ["ZZZ/USDT", "ZZZ/BTC"], url := "https://coinmarketcal.com/en/event/1",
    title := "Bybit will list ZZZ", description := "", confidence := some 90,
    timestamp := "now", source := "CoinMarketCal" }

/-- The listing `parse_listing_event` produces for `evA`. -/
def listingAAA : Listing :=
  { token := "AAA", name := none, exchange := "bybit", date := some "TBA",
    pairs := ["AAA/USDT", "AAA/BTC"], url := "https://coinmarketcal.com/en/event/2",
    title := "Bybit will list AAA", description := "", confidence := some 90,
    timestamp := "now", source := "CoinMarketCal" }

/-- A CoinMarketCal event carrying no structured date. -/
def evNoDate : Event :=
  { title := "Binance will list FOO", description := "", date_event := none,
    percentage := some 90, id := "5", coins := [] }

/-- The listing `parse_listing_event` produces for `evNoDate`. -/
def listingFOO : Listing :=
  { token := "FOO", name := none, exchange := "binance", date := some "TBA",
    pairs := ["FOO/USDT", "FOO/BTC"], url := "https://coinmarketcal.com/en/event/5",
    title := "Binance will list FOO", description := "", confidence := some 90,
    timestamp := "now", source := "CoinMarketCal" }

/-- The record `parse_listing_announcement` produces for a Binance
announcement whose page text contains no date pattern. -/
def scrapedFOO : ScrapedListing :=
  { token := "FOO", name := none, date := none, pairs := [],
    url := "https://binance.example/a", timestamp := "now",
    title := "Binance Will List Foo" }

/- ### Dictionary lemmas -/

theorem containsKey_insertKV (m : Cache) (k : String) (v : Listing) (k' : String) :
    containsKey (insertKV m k v) k' = true ↔ (k = k' ∨ containsKey m k' = true) := by
  induction m with
  | nil =>
    simp only [insertKV, containsKey]
    constructor
    · intro h
      by_cases hk : k = k'
      · exact Or.inl hk
      · simp [hk] at h
    · rintro (rfl | h)
      · simp
      · cases h
  | cons hd tl ih =>
    obtain ⟨k₀, v₀⟩ := hd
    simp only [insertKV]
    by_cases h0 : k₀ = k
    · rw [if_pos h0]
      simp only [containsKey]
      by_cases hk : k = k'
      · simp [hk, h0]
      · simp [hk, h0]
    · rw [if_neg h0]
      simp only [containsKey]
      by_cases hk : k₀ = k'
      · simp [hk]
      · simp [hk, ih]

theorem containsKey_buildAll_aux (hc : List Listing) (m : Cache) (k : String) :
    containsKey (hc.foldl (fun m l => insertKV m (get_listing_key l) l) m) k = true ↔
      (containsKey m k = true ∨ k ∈ hc.map get_listing_key) := by
  induction hc generalizing m with
  | nil => simp
  | cons hd tl ih =>
    simp only [List.foldl_cons, List.map_cons, List.mem_cons]
    rw [ih]
    rw [containsKey_insertKV]
    constructor
    · rintro ((h | h) | h)
      · exact Or.inr (Or.inl h.symm)
      · exact Or.inl h
      · exact Or.inr (Or.inr h)
    · rintro (h | h | h)
      · exact Or.inl (Or.inr h)
      · exact Or.inl (Or.inl h.symm)
      · exact Or.inr h

theorem containsKey_buildAll (hc : List Listing) (k : String) :
    containsKey (buildAll hc) k = true ↔ k ∈ hc.map get_listing_key := by
  rw [buildAll, containsKey_buildAll_aux]
  simp [containsKey]

/- ### Claims about the monitor core -/

/-- C1: Idempotence of a cycle: whatever the prior cache and the delivery
outcomes, running `ListingMonitor.run` on a corpus and then running it again
on the same corpus, starting from the cache the first run committed,
produces zero alerts on the second run: every accepted listing's identity
key was committed by the first run. -/
theorem C1_cycle_idempotent (previous : Cache) (corpus : List Listing)
    (send₁ send₂ : Listing → Bool) :
    (runCycle send₂ (runCycle send₁ previous corpus).2 corpus).1 = [] := by
  cases corpus with
  | nil => simp [runCycle]
  | cons c cs =>
    have h1 : (runCycle send₁ previous (c :: cs)).2
        = buildAll (filter_high_confidence_listings (c :: cs)) := by
      simp [runCycle]
    rw [h1]
    have hnil : (filter_high_confidence_listings (c :: cs)).filter
        (fun l => is_new_listing (buildAll (filter_high_confidence_listings (c :: cs))) l)
        = [] := by
      rw [List.filter_eq_nil_iff]
      intro l hl
      have hmem : get_listing_key l
          ∈ (filter_high_confidence_listings (c :: cs)).map get_listing_key :=
        List.mem_map_of_mem _ hl
      simp [is_new_listing, (containsKey_buildAll _ _).2 hmem]
    simp [runCycle, hnil]

/-- C2: Identity key stability: two Listing records with identical exchange,
token and date fields compute the same identity key, whatever their pairs,
confidence, url or other fields are; the key depends on exchange, token and
date alone. -/
theorem C2_identity_key_stable (l₁ l₂ : Listing)
    (he : l₁.exchange = l₂.exchange) (ht : l₁.token = l₂.token)
    (hd : l₁.date = l₂.date) :
    get_listing_key l₁ = get_listing_key l₂ := by
  simp [get_listing_key, he, ht, hd]

/-- Witness for C2 at two concrete records that differ in name, pairs, url,
title, description, confidence and timestamp. -/
theorem C2_identity_key_stable_witness :
    get_listing_key sampleA = get_listing_key sampleB :=
  C2_identity_key_stable sampleA sampleB rfl rfl rfl

/-- C3 counterexample: with an empty prior cache and a corpus presenting the
same binance candidate twice, the single cycle emits two alerts carrying the
same identity key, so two same-cycle candidates sharing an identity key do
both trigger an alert. -/
theorem C3_counterexample :
    ((runCycle (fun _ => true) [] [sampleA, sampleA]).1.map
        (fun p => get_listing_key p.1))
      = [get_listing_key sampleA, get_listing_key sampleA] := by decide

/-- C3 amended: the current map is indexed by identity key with last write
winning, but the alert list is built per accepted candidate and checked only
against the previous cache, so at most one alert per identity key is
guaranteed exactly when the cycle's accepted candidates have pairwise
distinct identity keys; under that hypothesis no two alerts of the cycle
share an identity key. -/
theorem C3_one_alert_per_distinct_key (sendOk : Listing → Bool)
    (previous : Cache) (corpus : List Listing)
    (h : ((filter_high_confidence_listings corpus).map get_listing_key).Nodup) :
    (((runCycle sendOk previous corpus).1).map (fun p => get_listing_key p.1)).Nodup := by
  cases corpus with
  | nil => simp [runCycle]
  | cons c cs =>
    have hrw : ((runCycle sendOk previous (c :: cs)).1).map (fun p => get_listing_key p.1)
        = ((filter_high_confidence_listings (c :: cs)).filter
            (fun l => is_new_listing previous l)).map get_listing_key := by
      simp [runCycle, List.map_map, Function.comp]
    rw [hrw]
    exact List.Nodup.sublist ((List.filter_sublist _).map get_listing_key) h

/-- Witness for C3 amended at a concrete two-candidate cycle whose accepted
candidates carry distinct identity keys. -/
theorem C3_one_alert_per_distinct_key_witness :
    ((((runCycle (fun _ => true) [] [sampleA, binanceNoConf]).1).map
        (fun p => get_listing_key p.1))).Nodup :=
  C3_one_alert_per_distinct_key (fun _ => true) [] [sampleA, binanceNoConf] (by decide)

/-- C4: ConfidenceFilter policy: `filter_high_confidence_listings` keeps a
listing iff its confidence (absent read as 0) is at least 60 or its
exchange is binance or coinbase; concretely, a binance listing with absent
confidence is kept and a kraken listing with confidence 45 is dropped. -/
theorem C4_confidence_filter_policy :
    (∀ (l : Listing) (ls : List Listing),
        l ∈ filter_high_confidence_listings ls ↔
          l ∈ ls ∧ (60 ≤ l.confidence.getD 0 ∨ l.exchange = "binance" ∨ l.exchange = "coinbase"))
    ∧ filter_high_confidence_listings [binanceNoConf] = [binanceNoConf]
    ∧ filter_high_confidence_listings [krakenLow] = [] := by
  refine ⟨?_, by decide, by decide⟩
  intro l ls
  simp [filter_high_confidence_listings, List.mem_filter, or_assoc]

/-- C8: DedupStore load never fails the caller: for every parse behaviour
and every file state, `load_cache` returns a map; it returns the empty map
when the file is missing, when reading raises, or when parsing raises, and
the parsed map when everything succeeds. -/
theorem C8_load_cache_never_fails (parseJson : String → Option Cache) :
    load_cache parseJson .missing = []
    ∧ load_cache parseJson .unreadable = []
    ∧ (∀ s, parseJson s = none → load_cache parseJson (.content s) = [])
    ∧ (∀ s m, parseJson s = some m → load_cache parseJson (.content s) = m) := by
  refine ⟨rfl, rfl, ?_, ?_⟩
  · intro s hs
    simp [load_cache, os_path_exists, read_file, hs]
  · intro s m hs
    simp [load_cache, os_path_exists, read_file, hs]

/-- Witness for C8 at a concrete parser that always raises and a concrete
corrupt file. -/
theorem C8_load_cache_never_fails_witness :
    load_cache (fun _ => none) (.content "not json") = [] :=
  (C8_load_cache_never_fails (fun _ => none)).2.2.1 "not json" rfl

/-- C9: Delivery-failure isolation with unconditional commit: whatever
listings the sink fails on, the cycle attempts exactly the same deliveries
in the same order as a cycle in which every delivery succeeds, and commits
exactly the same cache. -/
theorem C9_delivery_failure_isolation (previous : Cache) (corpus : List Listing)
    (sendOk : Listing → Bool) :
    ((runCycle sendOk previous corpus).1.map Prod.fst
        = (runCycle (fun _ => true) previous corpus).1.map Prod.fst)
    ∧ (runCycle sendOk previous corpus).2 = (runCycle (fun _ => true) previous corpus).2 := by
  cases corpus with
  | nil => simp [runCycle]
  | cons c cs =>
    constructor
    · simp [runCycle, List.map_map, Function.comp]
    · simp [runCycle]

/-- C10: Empty-fetch frame effect: a cycle with an empty corpus leaves the
persisted store untouched; a cycle with a non-empty corpus rewrites the
store wholesale to exactly the last-write-wins dict of the accepted
listings of that cycle, so its keys are precisely the accepted listings'
identity keys, and when every candidate is filtered out the store becomes
the empty map. -/
theorem C10_frame_effect (sendOk : Listing → Bool) (previous : Cache)
    (corpus : List Listing) :
    ((runCycle sendOk previous []).2 = previous)
    ∧ (corpus ≠ [] → (runCycle sendOk previous corpus).2
        = buildAll (filter_high_confidence_listings corpus))
    ∧ (corpus ≠ [] → ∀ k, containsKey (runCycle sendOk previous corpus).2 k = true ↔
        k ∈ (filter_high_confidence_listings corpus).map get_listing_key)
    ∧ (corpus ≠ [] → filter_high_confidence_listings corpus = [] →
        (runCycle sendOk previous corpus).2 = []) := by
  refine ⟨by simp [runCycle], ?_, ?_, ?_⟩
  · intro hne
    cases corpus with
    | nil => exact absurd rfl hne
    | cons c cs => simp [runCycle]
  · intro hne k
    cases corpus with
    | nil => exact absurd rfl hne
    | cons c cs =>
      rw [show (runCycle sendOk previous (c :: cs)).2
          = buildAll (filter_high_confidence_listings (c :: cs)) by simp [runCycle]]
      exact containsKey_buildAll _ _
  · intro hne hfil
    cases corpus with
    | nil => exact absurd rfl hne
    | cons c cs =>
      simp [runCycle, hfil, buildAll]

/-- Witness for C10 at concrete inputs: a non-empty corpus of one accepted
binance listing commits a store carrying exactly that listing's key, and a
non-empty corpus whose single kraken candidate is filtered out commits the
empty map. -/
theorem C10_frame_effect_witness :
    ((runCycle (fun _ => true) [] [sampleA]).2
        = buildAll (filter_high_confidence_listings [sampleA]))
    ∧ containsKey (runCycle (fun _ => true) [] [sampleA]).2 (get_listing_key sampleA) = true
    ∧ (runCycle (fun _ => true) [] [krakenLow]).2 = [] :=
  ⟨(C10_frame_effect (fun _ => true) [] [sampleA]).2.1 (by decide),
    ((C10_frame_effect (fun _ => true) [] [sampleA]).2.2.1 (by decide)
      (get_listing_key sampleA)).2 (by decide),
    (C10_frame_effect (fun _ => true) [] [krakenLow]).2.2.2 (by decide) (by decide)⟩

/- ### Claims about ordering, dates and token extraction -/

theorem priority_le_trans (a b c : Listing) :
    priority_le a b → priority_le b c → priority_le a c := by
  simp only [priority_le, decide_eq_true_eq]
  omega

theorem priority_le_total (a b : Listing) : priority_le a b || priority_le b a := by
  simp only [priority_le, Bool.or_eq_true, decide_eq_true_eq]
  omega

/-- C5 counterexample: two bybit events, tokens ZZZ then AAA in corpus
order, come out of `get_upcoming_listings` still in that order: equal
exchange priority is not tie-broken by token lexical order, although AAA
precedes ZZZ lexically. -/
theorem C5_counterexample :
    get_upcoming_listings (fun _ => none) "now" [evZ, evA] = [listingZZZ, listingAAA]
    ∧ listingZZZ.exchange = listingAAA.exchange
    ∧ listingAAA.token < listingZZZ.token := by
  refine ⟨?_, rfl, by rw [String.lt_iff_toList_lt]; decide⟩
  unfold get_upcoming_listings
  rw [show prefilter_listings (fun _ => none) "now" [evZ, evA]
      = [listingZZZ, listingAAA] from by rfl]
  exact List.mergeSort_of_sorted (by decide)

/-- C5 amended: delivery follows the fixed exchange-priority ranking
(binance 1, coinbase 2, bybit 3, kraken 4, unranked 999 hence last): the
sorted output has nondecreasing priorities, is a permutation of the
accumulated listings, and the sort is stable, so listings of equal priority
keep their corpus order instead of being tie-broken by token; the monitor
then delivers the alerts as a subsequence of its input order. -/
theorem C5_delivery_order (dparse : String → Option String) (now : String)
    (events : List Event) :
    ((get_upcoming_listings dparse now events).Pairwise fun a b =>
        get_exchange_priority a.exchange ≤ get_exchange_priority b.exchange)
    ∧ (get_upcoming_listings dparse now events).Perm (prefilter_listings dparse now events)
    ∧ (∀ a b, get_exchange_priority a.exchange ≤ get_exchange_priority b.exchange →
        [a, b].Sublist (prefilter_listings dparse now events) →
        [a, b].Sublist (get_upcoming_listings dparse now events))
    ∧ (get_exchange_priority "binance" = 1 ∧ get_exchange_priority "coinbase" = 2
        ∧ get_exchange_priority "bybit" = 3 ∧ get_exchange_priority "kraken" = 4
        ∧ get_exchange_priority "okx" = 999)
    ∧ (∀ (sendOk : Listing → Bool) (previous : Cache) (corpus : List Listing),
        ((runCycle sendOk previous corpus).1.map Prod.fst).Sublist corpus) := by
  refine ⟨?_, List.mergeSort_perm _ _, ?_, by decide, ?_⟩
  · exact (List.sorted_mergeSort priority_le_trans priority_le_total _).imp
      fun h => by simpa [priority_le] using h
  · intro a b hab hsub
    exact List.pair_sublist_mergeSort priority_le_trans priority_le_total
      (by simpa [priority_le] using hab) hsub
  · intro sendOk previous corpus
    cases corpus with
    | nil => simp [runCycle]
    | cons c cs =>
      have hrw : (runCycle sendOk previous (c :: cs)).1.map Prod.fst
          = (filter_high_confidence_listings (c :: cs)).filter
              (fun l => is_new_listing previous l) := by
        simp only [runCycle, List.isEmpty_cons, Bool.false_eq_true, if_false, List.map_map]
        rw [show (Prod.fst ∘ fun l : Listing => (l, sendOk l)) = id from rfl]
        exact List.map_id _
      rw [hrw]
      exact (List.filter_sublist _).trans (List.filter_sublist _)

/-- Witness for C5 amended: the two tied bybit listings, in corpus order,
form a subsequence of the sorted output. -/
theorem C5_delivery_order_witness :
    [listingZZZ, listingAAA].Sublist
      (get_upcoming_listings (fun _ => none) "now" [evZ, evA]) :=
  (C5_delivery_order (fun _ => none) "now" [evZ, evA]).2.2.1 listingZZZ listingAAA
    (by decide)
    (by rw [show prefilter_listings (fun _ => none) "now" [evZ, evA]
          = [listingZZZ, listingAAA] from by rfl])

/-- C6 counterexample: a CoinMarketCal event with no structured date parses
to a listing whose date is the string TBA, not the sentinel unannounced;
and a Binance announcement whose page text matches no date pattern parses
to a record whose date is None. -/
theorem C6_counterexample :
    parse_listing_event (fun _ => none) "now" evNoDate = some listingFOO
    ∧ listingFOO.date = some "TBA"
    ∧ parse_listing_announcement "Binance Will List Foo" "https://binance.example/a"
        "now" (some "Welcome to Binance") = some scrapedFOO
    ∧ scrapedFOO.date = none := by
  exact ⟨by rfl, rfl, by rfl, rfl⟩

/-- C6 amended: a candidate without a date is normalized to the sentinel
string TBA by the CoinMarketCal client, never to null, while the Binance
scraper leaves the date null whenever the page fetch fails or no date
pattern matches the page text. -/
theorem C6_date_fallbacks :
    (∀ (dparse : String → Option String) (now : String) (ev : Event) (l : Listing),
        ev.date_event = none → parse_listing_event dparse now ev = some l →
        l.date = some "TBA")
    ∧ (∀ (title url now : String) (r : ScrapedListing),
        parse_listing_announcement title url now none = some r → r.date = none)
    ∧ (∀ (title url now content : String) (r : ScrapedListing),
        extract_listing_date content = none →
        parse_listing_announcement title url now (some content) = some r →
        r.date = none) := by
  refine ⟨?_, ?_, ?_⟩
  · intro dparse now ev l hdate hparse
    simp only [parse_listing_event, hdate] at hparse
    split at hparse
    · cases hparse
      rfl
    · cases hparse
  · intro title url now r hparse
    simp only [parse_listing_announcement] at hparse
    split at hparse
    · cases hparse
    · cases hparse
      rfl
  · intro title url now content r hdate hparse
    simp only [parse_listing_announcement, hdate] at hparse
    split at hparse
    · cases hparse
    · cases hparse
      rfl

/-- Witness for C6 amended at the concrete no-date event and the concrete
dateless Binance page. -/
theorem C6_date_fallbacks_witness :
    listingFOO.date = some "TBA" ∧ scrapedFOO.date = none :=
  ⟨C6_date_fallbacks.1 (fun _ => none) "now" evNoDate listingFOO rfl (by rfl),
   C6_date_fallbacks.2.2 "Binance Will List Foo" "https://binance.example/a" "now"
     "Welcome to Binance" scrapedFOO (by rfl) (by rfl)⟩

theorem mem_dedupSeen (t : String) :
    ∀ (seen l : List String), t ∈ dedupSeen seen l → t ∈ l := by
  intro seen l
  induction l generalizing seen with
  | nil => simp [dedupSeen]
  | cons x rest ih =>
    simp only [dedupSeen]
    split
    · intro h
      exact List.mem_cons_of_mem _ (ih _ h)
    · intro h
      rcases List.mem_cons.1 h with h | h
      · exact h ▸ List.mem_cons_self _ _
      · exact List.mem_cons_of_mem _ (ih _ h)

/-- C7 counterexample: on the input THE NEW LISTING OF XYZ the client
extractor returns OF first, then XYZ, and the standalone bot extractor
returns LISTING; neither yields XYZ as the chosen token. -/
theorem C7_counterexample :
    extract_tokens "THE NEW LISTING OF XYZ" = ["OF", "XYZ"]
    ∧ bot_extract_token "THE NEW LISTING OF XYZ" = some "LISTING" :=
  ⟨by rfl, by rfl⟩

/-- C7 amended: neither extractor ever returns a symbol of its fixed
false-positive set, so THE and NEW are never returned; but on the input
THE NEW LISTING OF XYZ the first surviving candidate is OF, not XYZ, XYZ
appearing second. -/
theorem C7_token_stop_list :
    (∀ (text t : String), t ∈ extract_tokens text → t ∉ false_positives)
    ∧ (∀ (title t : String), bot_extract_token title = some t → t ∉ bot_false_positives)
    ∧ (extract_tokens "THE NEW LISTING OF XYZ").head? = some "OF" := by
  refine ⟨?_, ?_, by rfl⟩
  · intro text t ht hfp
    have h1 : t ∈ (bareTokens text.toList ++ dollarTokens text.toList
        ++ parenTokens text.toList).filter
        (fun t => 2 ≤ t.length && t.length ≤ 6 && !(false_positives.contains t)) :=
      mem_dedupSeen t [] _ ht
    have h2 := (List.mem_filter.1 h1).2
    simp only [Bool.and_eq_true, Bool.not_eq_true', List.contains, List.elem_eq_mem,
      decide_eq_false_iff_not] at h2
    exact h2.2 hfp
  · intro title t ht hfp
    have hmem : t ∈ (bareTokens title.toList).filter
        (fun m => !(bot_false_positives.contains m) && 2 ≤ m.length) :=
      List.mem_of_mem_head? (Option.mem_def.2 ht)
    have h2 := (List.mem_filter.1 hmem).2
    simp only [Bool.and_eq_true, Bool.not_eq_true', List.contains, List.elem_eq_mem,
      decide_eq_false_iff_not] at h2
    exact h2.1 hfp

/-- Witness for C7 amended: XYZ survives the client extractor stop-list and
THE XYZ makes the bot extractor return XYZ, so XYZ is in neither
false-positive set. -/
theorem C7_token_stop_list_witness :
    ("XYZ" : String) ∉ false_positives ∧ ("XYZ" : String) ∉ bot_false_positives :=
  ⟨C7_token_stop_list.1 "THE NEW LISTING OF XYZ" "XYZ" (by decide),
   C7_token_stop_list.2.1 "THE XYZ" "XYZ" (by rfl)⟩

end ListingSpec
